import Mathlib

/-!
Verification development for the Intertop synchronisation core of the
xml_converter_app repository.  The definitions below are a shallow
embedding of the Python sources:

* the resilient HTTP transports `make_request` (synchronous,
  src/senders/intertop.py, `make_request`) and the asynchronous transport
  (`make_request_async`, same file), modelled over an abstract stream of
  HTTP responses indexed by the number of requests issued so far;
* the paginated fetcher `get_products`;
* the categoriser, planner and deactivation planner of
  src/exporters/intertop.py.

Network effects are modelled by recording the emitted remote calls in the
result state; JSON bodies are abstracted as strings; Python float prices
are modelled as rationals (only equality and copying of prices occur in
the verified code paths); Python `None` is modelled with `Option`.
-/

namespace XmlConv

/-- Outcome of a single HTTP attempt, as seen by the transport code:
a 2xx response with an optional (possibly empty) body, an HTTP error
status raised by `raise_for_status` (with an optional integer
`Retry-After` header), or a connection-level error / timeout. -/
inductive HttpResp where
  | success (body : Option String)
  | httpError (status : Nat) (retryAfter : Option Nat)
  | connError
deriving DecidableEq

/-- Result of the synchronous `make_request`: either a returned Python
value (`ret none` is Python `None`) or an exception escaping the call. -/
inductive SyncResult where
  | ret (v : Option String)
  | exn
deriving DecidableEq

/-- Body of the retry loop of `make_request` (src/senders/intertop.py,
lines 56-75).  The first argument of `responses` is the index of the
request being issued.  Only `requests.HTTPError` is caught by the
source, so a connection error or timeout escapes as an exception; after
the final HTTP error the loop falls through and the function implicitly
returns `None`.  No sleep occurs between attempts (the `sleep_time`
parameter of the source is unused). -/
def makeRequestGo (responses : Nat → HttpResp) : Nat → Nat → SyncResult
  | 0, _ => .ret none
  | retries + 1, idx =>
    match responses idx with
    | .success none => .ret none
    | .success (some body) => .ret (some body)
    | .httpError _ _ => makeRequestGo responses retries (idx + 1)
    | .connError => .exn

/-- Synchronous transport `make_request` with its retry bound
(default 3 in the source). -/
def make_request (responses : Nat → HttpResp) (retries : Nat) : SyncResult :=
  makeRequestGo responses retries 0

/-- Result of one inner retry cycle (`for i in range(retries)`) of
`make_request_async`: either the call returned a value, or the cycle
exhausted its retry budget.  `idx` is the index of the next request to
issue; `slept` accumulates the total seconds slept so far. -/
inductive InnerRes where
  | done (v : Option String) (idx : Nat) (slept : ℚ)
  | exhausted (idx : Nat) (slept : ℚ)
deriving DecidableEq

/-- Inner retry cycle of `make_request_async` (src/senders/intertop.py,
lines 485-530).  The first `Nat` argument is the number of iterations
still available in this cycle (`retries - i`).  On 404 the call returns
`None` immediately; on 429 it sleeps the `Retry-After` hint (or
`int(delay)` when absent) and moves on to the next iteration; on another
HTTP error it sleeps `delay` only on the last iteration; on a connection
error or timeout it sleeps `delay` on every iteration. -/
def innerLoop (responses : Nat → HttpResp) (delay : ℚ) : Nat → Nat → ℚ → InnerRes
  | 0, idx, slept => .exhausted idx slept
  | rem + 1, idx, slept =>
    match responses idx with
    | .success none => .done none (idx + 1) slept
    | .success (some body) => .done (some body) (idx + 1) slept
    | .httpError status ra =>
      if status = 404 then .done none (idx + 1) slept
      else if status = 429 then
        let retry_after : ℚ :=
          match ra with
          | some n => (n : ℚ)
          | none => ((Rat.floor delay : ℤ) : ℚ)
        innerLoop responses delay rem (idx + 1) (slept + retry_after)
      else if rem = 0 then innerLoop responses delay rem (idx + 1) (slept + delay)
      else innerLoop responses delay rem (idx + 1) slept
    | .connError => innerLoop responses delay rem (idx + 1) (slept + delay)

/-- Delay escalation of the outer loop of `make_request_async`:
`delay = min(delay * backoff_factor, 300)` with `backoff_factor = 1.5`. -/
def nextDelay (d : ℚ) : ℚ := min (d * (3 / 2)) 300

/-- Final outcome of a `make_request_async` run: `result = none` means
the given fuel was not enough, i.e. the source's unbounded `while True`
loop is still running (the call never returned within that many outer
cycles). -/
structure AsyncOutcome where
  result : Option (Option String)
  idx : Nat
  slept : ℚ
deriving DecidableEq

/-- Outer `while True` loop of `make_request_async` (lines 483-537):
run one inner retry cycle; if it exhausts its budget, escalate the delay
(capped at 300 s), sleep it, and start over.  `fuel` bounds the number
of outer cycles modelled. -/
def outerLoop (responses : Nat → HttpResp) (retries : Nat) : Nat → Nat → ℚ → ℚ → AsyncOutcome
  | 0, idx, _, slept => ⟨none, idx, slept⟩
  | fuel + 1, idx, delay, slept =>
    match innerLoop responses delay retries idx slept with
    | .done v idx' slept' => ⟨some v, idx', slept'⟩
    | .exhausted idx' slept' =>
      outerLoop responses retries fuel idx' (nextDelay delay) (slept' + nextDelay delay)

/-- Asynchronous transport `make_request_async` with the source's
defaults: `retries = 10`, `sleep_time = 10`. -/
def make_request_async (responses : Nat → HttpResp) (fuel : Nat) : AsyncOutcome :=
  outerLoop responses 10 fuel 0 10 0

/-- Page loop of `get_products` (src/senders/intertop.py, lines
370-386).  `pages n` is the server's answer to the request with offset
`300 * n`: `none` models a failed request (`make_request` returned
`None`), `some items` a successful page.  The loop stops on a failed
request or an empty page; `fuel` bounds the number of iterations
modelled (the source loop has no own bound). -/
def getProductsGo {α : Type} (pages : Nat → Option (List α)) : Nat → Nat → List α → List α
  | 0, _, acc => acc
  | fuel + 1, n, acc =>
    match pages n with
    | none => acc
    | some items => if items.isEmpty then acc else getProductsGo pages fuel (n + 1) (acc ++ items)

/-- Paginated fetcher `get_products`. -/
def get_products {α : Type} (pages : Nat → Option (List α)) (fuel : Nat) : List α :=
  getProductsGo pages fuel 0 []

/-! Data model of the exporter (src/schemas/data_schema.py and the JSON
shapes read in src/exporters/intertop.py).  Fields of `Offer` not read
by the synchronisation code are omitted; `article` is `Option` because
the schema declares it `Optional[str]`. -/

/-- One `<param>` of a local offer. -/
structure Param where
  name : String
  value : String
deriving DecidableEq

/-- A local offer (the fields read by `ExporterIntertop`). -/
structure Offer where
  article : Option String
  price : ℚ
  discount_price : ℚ
  stock_quantity : Option Int
  params : List Param
deriving DecidableEq

/-- A remote product as returned by `get_products`: the fields
`vendor_code`, `article` and `status.code` read by the exporter. -/
structure Product where
  vendor_code : String
  article : String
  status : String
deriving DecidableEq

/-- One value of `article_sizeID_mapping`: the six-tuple stored by
`get_product_offers_async` for a remote variant. -/
structure VariantData where
  barcode : String
  base_price_amount : ℚ
  discount_price_amount : ℚ
  product_status : String
  offer_activity : Bool
  quantity : Int
deriving DecidableEq

/-- The remote-variant snapshot `article_sizeID_mapping`, keyed by
`(product article, size_id)`. -/
abbrev VMap := List ((String × Nat) × VariantData)

/-- Python `dict` lookup on an association list built by repeated
insertion: a later binding of the same key overrides an earlier one. -/
def dictLookup {α β : Type} [DecidableEq α] : List (α × β) → α → Option β
  | [], _ => none
  | e :: rest, k =>
    match dictLookup rest k with
    | some v => some v
    | none => if e.1 = k then some e.2 else none

/-- Python `set.add`: insert an element unless already present. -/
def insertUniq {α : Type} [DecidableEq α] (x : α) (l : List α) : List α :=
  if x ∈ l then l else x :: l

/-- Python `str.strip()`: drop leading and trailing whitespace, as
applied to size values before the size-mapping lookup. -/
def pyStrip (s : String) : String :=
  ⟨((s.data.dropWhile (fun c => c.isWhitespace)).reverse.dropWhile
      (fun c => c.isWhitespace)).reverse⟩

/-- Python `str(x)` for an optional string (`str(None) = "None"`),
as used by `vendorCodes_draft.append(str(offer.article))` and the
created barcode f-string. -/
def pyStr : Option String → String
  | none => "None"
  | some s => s

/-- Python membership test `x in l` where `x` is `None`-or-string and
`l` holds strings (`None in l` is `False`). -/
def optMem (x : Option String) (l : List String) : Bool :=
  match x with
  | none => false
  | some s => decide (s ∈ l)

/-- The status codes treated as fully onboarded by the exporter; any
other code counts as "not uploaded". -/
def stable_statuses : List String := ["uploaded", "moderate", "approved", "not_approved"]

/-- Keys of `article_uniq_groups` built by `_prepare_data_maps`:
first occurrence of every truthy offer article, in catalog order. -/
def article_uniq_groups_keys (offers : List Offer) : List String :=
  offers.foldl
    (fun acc o =>
      match o.article with
      | some a => if a ≠ "" ∧ a ∉ acc then acc ++ [a] else acc
      | none => acc)
    []

/-- The dictionary returned by `_categorize_intertop_products`. -/
structure Categorized where
  all_products_map : List (String × String)
  vendorCodes_not_uploaded : List String
  vendorCodes_draft : List String
  vendorCodes_only_on_intertop : List String
  articles_only_on_rozetka : List (Option String)
  articles_moderate : List String
deriving DecidableEq

/-- The categoriser `_categorize_intertop_products`
(src/exporters/intertop.py, lines 104-167).  Python sets are modelled
as deduplicated lists; `vendorCodes_draft` is a plain list in the
source and stays one here; `articles_moderate` is the tuple of articles
of products whose status is `moderate`. -/
def categorize_intertop_products (products : List Product) (offers : List Offer) : Categorized :=
  let localKeys := article_uniq_groups_keys offers
  { all_products_map := products.map (fun p => (p.vendor_code, p.article))
    vendorCodes_not_uploaded :=
      ((products.filter (fun p => decide (p.status ∉ stable_statuses))).map
        (fun p => p.vendor_code)).dedup
    vendorCodes_draft :=
      (products.filter (fun p => decide (p.status = "draft"))).map (fun p => p.vendor_code)
    vendorCodes_only_on_intertop :=
      ((products.filter (fun p => decide (p.vendor_code ∉ localKeys))).map
        (fun p => p.vendor_code)).dedup
    articles_only_on_rozetka :=
      ((offers.filter (fun o => !(optMem o.article (products.map (fun p => p.vendor_code))))).map
        (fun o => o.article)).dedup
    articles_moderate :=
      (products.filter (fun p => decide (p.status = "moderate"))).map (fun p => p.article) }

/-- The `vendorCodes_not_approved` set computed (for warnings only, it
is not part of the returned dictionary) by the categoriser. -/
def vendorCodes_not_approved (products : List Product) (offers : List Offer) : List String :=
  ((products.filter (fun p =>
      decide (p.status = "not_approved") &&
        decide (p.vendor_code ∈ article_uniq_groups_keys offers))).map
    (fun p => p.vendor_code)).dedup

/-- Result of the status pre-pass `_handle_product_status_changes`:
the pending-moderation set, the extended draft list, and the
`change_product_status` calls issued (article, new status). -/
structure PrePassResult where
  articles_to_moderate : List (Option String)
  vendorCodes_draft : List String
  status_calls : List (Option String × String)
deriving DecidableEq

/-- Status pre-pass (src/exporters/intertop.py, lines 169-200): move
every stale remote-only article (`remoteOnly - notUploaded`) to draft,
then move every `moderate` article to draft while recording it in the
pending-moderation set. -/
def handle_product_status_changes (cat : Categorized) : PrePassResult :=
  let articles_to_archive :=
    (cat.vendorCodes_only_on_intertop.filter
      (fun v => decide (v ∉ cat.vendorCodes_not_uploaded))).dedup
  let draft := cat.vendorCodes_draft ++ articles_to_archive
  let archiveCalls :=
    articles_to_archive.map (fun i => (dictLookup cat.all_products_map i, "draft"))
  let toModerate :=
    cat.articles_moderate.foldl (fun acc a => insertUniq (some a) acc) []
  let moderateCalls :=
    cat.articles_moderate.map (fun a => ((some a : Option String), "draft"))
  ⟨toModerate, draft, archiveCalls ++ moderateCalls⟩

/-- Status post-pass `_finalize_status_updates` (lines 383-392): move
every article of the pending-moderation set back to `moderate`. -/
def finalize_status_updates (articles_to_moderate : List (Option String)) :
    List (Option String × String) :=
  articles_to_moderate.map (fun a => (a, "moderate"))

/-- An `update_offer` task queued by the planner
(`update_offer_task_args` entry, without the bearer token). -/
structure UpdateTask where
  article : Option String
  barcode : String
  base_price_amount : ℚ
  discount_price_amount : ℚ
  quantity : Option Int
  activity : Bool
deriving DecidableEq

/-- A `create_offer_for_product` call emitted by the planner. -/
structure CreateTask where
  article : Option String
  barcode : String
  quantity : Option Int
  size_id : Nat
  base_price_amount : ℚ
  discount_price_amount : ℚ
deriving DecidableEq

/-- Mutable state threaded through `_prepare_offer_updates`: the
moderation set and draft list (modified in place by the source), the
used-key set, the queued update tasks, the emitted create and status
calls, and the created-offers counter. -/
structure PlanState where
  articles_to_moderate : List (Option String)
  vendorCodes_draft : List String
  used : List (Option String × Nat)
  update_tasks : List UpdateTask
  create_tasks : List CreateTask
  status_calls : List (Option String × String)
  created_count : Nat
deriving DecidableEq

/-- The param names recognised as a size (`["розмір", "size", "зріст"]`). -/
def size_names : List String := ["розмір", "size", "зріст"]

/-- Python `all_products_map.get(offer.article)` where `offer.article`
may be `None`. -/
def amapGet (m : List (String × String)) (oa : Option String) : Option String :=
  oa.bind (dictLookup m)

/-- Lookup of `article_sizeID_mapping` at a key whose first component
may be `None` (a `None` key never hits, as in Python). -/
def vmapGet (m : VMap) (key : Option String × Nat) : Option VariantData :=
  match key.1 with
  | none => none
  | some a => dictLookup m (a, key.2)

/-- The `if offer.article not in vendorCodes_draft` block shared by the
not-uploaded branch (lines 235-239) and the create branch (lines
290-292): append `str(offer.article)` to the draft list and issue a
`draft` status call for the mapped article. -/
def draft_append (cat : Categorized) (offer : Offer) (st : PlanState) : PlanState :=
  if optMem offer.article st.vendorCodes_draft then st
  else { st with
    vendorCodes_draft := st.vendorCodes_draft ++ [pyStr offer.article]
    status_calls :=
      st.status_calls ++ [(amapGet cat.all_products_map offer.article, "draft")] }

/-- The `if offer.article not in articles_to_moderate` block of the
not-uploaded branch (lines 233-234): add the mapped article to the
moderation set (note the guard checks the raw offer article while the
mapped article is added, as in the source). -/
def moderate_add (cat : Categorized) (offer : Offer) (st : PlanState) : PlanState :=
  if offer.article ∈ st.articles_to_moderate then st
  else { st with
    articles_to_moderate :=
      insertUniq (amapGet cat.all_products_map offer.article) st.articles_to_moderate }

/-- The not-uploaded prologue of the per-offer loop (lines 229-239). -/
def not_uploaded_prep (cat : Categorized) (offer : Offer) (st : PlanState) : PlanState :=
  if optMem offer.article cat.vendorCodes_not_uploaded then
    draft_append cat offer (moderate_add cat offer st)
  else st

/-- The not-found branch of the planner (lines 287-302): count the
offer as created, add its article to the moderation set
(unconditionally, `set.add`), move it to draft unless already in the
draft list, and emit one `create_offer_for_product` call with barcode
`f"{offer.article}{size_id}"`. -/
def create_branch (cat : Categorized) (offer : Offer) (size_id : Nat) (st : PlanState) :
    PlanState :=
  let st1 := { st with
    created_count := st.created_count + 1
    articles_to_moderate :=
      insertUniq (amapGet cat.all_products_map offer.article) st.articles_to_moderate }
  let st2 := draft_append cat offer st1
  { st2 with
    create_tasks := st2.create_tasks ++
      [⟨amapGet cat.all_products_map offer.article, pyStr offer.article ++ toString size_id,
        offer.stock_quantity, size_id, offer.price, offer.discount_price⟩] }

/-- Handling of one size-named param (lines 242-302): resolve the size
mapping (a missing or falsy size id stops the offer), look up the
remote variant, and either record the key as used (emitting an update
task when any field differs) or take the create branch. -/
def process_size_param (cat : Categorized) (mapping : VMap)
    (size_mapping : List (String × (Nat × String))) (offer : Offer) (st : PlanState)
    (p : Param) : PlanState :=
  match dictLookup size_mapping (pyStrip p.value) with
  | none => st
  | some (size_id, _intertop_value) =>
    if size_id = 0 then st
    else
      let key := (amapGet cat.all_products_map offer.article, size_id)
      match vmapGet mapping key with
      | some d =>
        if d.barcode ≠ "" then
          let st1 := { st with used := insertUniq key st.used }
          if ¬ (offer.price = d.base_price_amount ∧
                offer.discount_price = d.discount_price_amount ∧
                offer.stock_quantity = some d.quantity ∧
                d.offer_activity = true) then
            { st1 with update_tasks := st1.update_tasks ++
              [⟨key.1, d.barcode, offer.price, offer.discount_price,
                offer.stock_quantity, true⟩] }
          else st1
        else create_branch cat offer size_id st
      | none => create_branch cat offer size_id st

/-- The `for param in offer.params` loop: every size-named param ends
the loop (each branch of the source ends in `break`), other params are
skipped. -/
def process_params (cat : Categorized) (mapping : VMap)
    (size_mapping : List (String × (Nat × String))) (offer : Offer) :
    PlanState → List Param → PlanState
  | st, [] => st
  | st, p :: rest =>
    if size_names.contains p.name then process_size_param cat mapping size_mapping offer st p
    else process_params cat mapping size_mapping offer st rest

/-- Per-offer body of `_prepare_offer_updates` (lines 223-302): skip
offers only present locally; for a not-uploaded article add it to the
moderation set and draft list (with a status call) first; then walk the
params. -/
def process_offer (cat : Categorized) (mapping : VMap)
    (size_mapping : List (String × (Nat × String))) (st : PlanState) (offer : Offer) :
    PlanState :=
  if offer.article ∈ cat.articles_only_on_rozetka then st
  else
    process_params cat mapping size_mapping offer (not_uploaded_prep cat offer st)
      offer.params

/-- The offer-update planner `_prepare_offer_updates`: fold the
per-offer body over the catalog. -/
def prepare_offer_updates (cat : Categorized) (mapping : VMap)
    (size_mapping : List (String × (Nat × String))) (offers : List Offer)
    (st0 : PlanState) : PlanState :=
  offers.foldl (process_offer cat mapping size_mapping) st0

/-- An `archive`-style deactivation task queued by
`_prepare_offer_deactivations` (quantity forced to 0, activity to
false, prices copied from the remote variant). -/
structure DeactivateTask where
  article : String
  barcode : String
  base_price_amount : ℚ
  discount_price_amount : ℚ
  quantity : Int
  activity : Bool
deriving DecidableEq

/-- Body of the deactivation loop for one stale key: look the variant
up again in the snapshot and emit a task unless its barcode belongs to
an already-inactive (and not `archived`) variant.  The lookup always
succeeds because the iterated keys come from the mapping itself. -/
def deactivation_step (mapping : VMap) (inactive_barcodes : List String)
    (k : String × Nat) : Option DeactivateTask :=
  match dictLookup mapping k with
  | none => none
  | some d =>
    if d.barcode ∈ inactive_barcodes then none
    else some ⟨k.1, d.barcode, d.base_price_amount, d.discount_price_amount, 0, false⟩

/-- The refreshed-snapshot articles whose current status is not
stable, excluded from deactivation (lines 335-340). -/
def vendorCodes_articles_not_uploaded (products : List Product) : List String :=
  ((products.filter (fun p => decide (p.status ∉ stable_statuses))).map
    (fun p => p.article)).dedup

/-- The stale keys of the snapshot: existing keys minus used keys,
restricted to articles whose refreshed status is stable (lines
342-347). -/
def not_updated_offers_keys (products : List Product) (mapping : VMap)
    (used : List (Option String × Nat)) : List (String × Nat) :=
  ((mapping.map Prod.fst).dedup).filter (fun k =>
    decide (((some k.1 : Option String), k.2) ∉ used) &&
      decide (k.1 ∉ vendorCodes_articles_not_uploaded products))

/-- Barcodes of variants recorded as inactive under a non-`archived`
product status (lines 349-353). -/
def inactive_barcodes (mapping : VMap) : List String :=
  (mapping.filter (fun e =>
    decide (e.2.offer_activity = false) && decide (e.2.product_status ≠ "archived"))).map
    (fun e => e.2.barcode)

/-- The deactivation planner `_prepare_offer_deactivations` (lines
325-381): from the refreshed product snapshot, keep the mapping keys
that were not used and whose article has a stable current status, and
deactivate each unless its variant is recorded as inactive under a
non-`archived` product status. -/
def prepare_offer_deactivations (products : List Product) (mapping : VMap)
    (used : List (Option String × Nat)) : List DeactivateTask :=
  (not_updated_offers_keys products mapping used).filterMap
    (deactivation_step mapping (inactive_barcodes mapping))

/-- A response stream whose every answer is a retryable failure of the
asynchronous transport: a connection error or an HTTP error other
than 404 (including 429). -/
def retryable : HttpResp → Prop
  | .success _ => False
  | .httpError s _ => s ≠ 404
  | .connError => True

/-- Server answering pages of sizes 300, 300, 137 and then an empty
page, for the pagination witness. -/
def pages737 : Nat → Option (List Nat) :=
  fun n =>
    if n = 0 then some (List.replicate 300 1)
    else if n = 1 then some (List.replicate 300 2)
    else if n = 2 then some (List.replicate 137 3)
    else some []

/-- A server that answers every request with `429 Retry-After: 5`. -/
def resp429 : Nat → HttpResp := fun _ => HttpResp.httpError 429 (some 5)

/-- Remote snapshot for the categoriser counterexample: a single
product in `draft` status that is absent from the local catalog. -/
def cexCatProducts : List Product := [⟨"A", "A", "draft"⟩]

/-- Refreshed snapshot for the deactivation counterexample: the
article is currently in a stable status. -/
def cexDeactProducts : List Product := [⟨"A", "A", "approved"⟩]

/-- Variant snapshot for the deactivation counterexample: the variant
is already inactive but its recorded product status is `archived`. -/
def cexDeactMapping : VMap := [(("A", 1), ⟨"B1", 10, 9, "archived", false, 3⟩)]

/-- Variant snapshot for the deactivation witness: an active variant
that must be deactivated. -/
def wDeactMapping : VMap := [(("A", 1), ⟨"B1", 10, 9, "uploaded", true, 3⟩)]

/-- A small categoriser output for the status-pass witness: one
archivable remote-only vendor code mapping to article `ArtA`, one
article `M` on moderation. -/
def wCat : Categorized := ⟨[("A", "ArtA")], [], [], ["A"], [], ["M"]⟩

/-- Remote snapshot for the planner witnesses: one uploaded product
with vendor code `A` and article `ArtA`. -/
def wProducts : List Product := [⟨"A", "ArtA", "uploaded"⟩]

/-- A local offer of article `A`, size label `M`, for the planner
witnesses. -/
def wOffer : Offer := ⟨some "A", 100, 90, some 5, [⟨"size", "M"⟩]⟩

/-- The local catalog of the planner witnesses. -/
def wOffers : List Offer := [wOffer]

/-- Variant snapshot matching `wOffer` exactly (same prices, quantity,
active). -/
def wVMap : VMap := [(("ArtA", 7), ⟨"BC1", 100, 90, "uploaded", true, 5⟩)]

/-- Size mapping table for the witnesses: label `M` has remote size id
7. -/
def wSzMap : List (String × (Nat × String)) := [("M", (7, "M-int"))]

/-- Empty initial planner state. -/
def wSt0 : PlanState := ⟨[], [], [], [], [], [], 0⟩

/-! Theorems.  First the transport and pagination claims, then the
categoriser, the status passes, the planner and the deactivation
planner. -/

/-- Characterisation of the page loop: if the first `k` pages (from
offset index `n`) are non-empty and page `n + k` fails or is empty,
the loop returns the accumulator followed by the first `k` pages in
order. -/
lemma getProductsGo_spec {α : Type} (pages : Nat → Option (List α)) :
    ∀ (k fuel n : Nat) (acc : List α), k < fuel →
      (∀ j, j < k → ∃ its, pages (n + j) = some its ∧ its ≠ []) →
      (pages (n + k) = none ∨ pages (n + k) = some []) →
      getProductsGo pages fuel n acc =
        acc ++ ((List.range k).map (fun j => (pages (n + j)).getD [])).flatten := by
  intro k
  induction k with
  | zero =>
    intro fuel n acc hf hpages hstop
    obtain ⟨f, rfl⟩ : ∃ f, fuel = f + 1 := ⟨fuel - 1, by omega⟩
    rw [Nat.add_zero] at hstop
    rcases hstop with h0 | h0 <;> simp [getProductsGo, h0]
  | succ k ih =>
    intro fuel n acc hf hpages hstop
    obtain ⟨f, rfl⟩ : ∃ f, fuel = f + 1 := ⟨fuel - 1, by omega⟩
    obtain ⟨its, hits, hne⟩ := hpages 0 (Nat.succ_pos k)
    rw [Nat.add_zero] at hits
    have hemp : its.isEmpty = false := by
      cases its with
      | nil => exact absurd rfl hne
      | cons a t => rfl
    have hrec := ih f (n + 1) (acc ++ its) (by omega)
      (fun j hj => by
        have h := hpages (j + 1) (by omega)
        rwa [show n + (j + 1) = n + 1 + j by omega] at h)
      (by rwa [show n + (k + 1) = n + 1 + k by omega] at hstop)
    have hmap : (List.range k).map ((fun j => (pages (n + j)).getD []) ∘ Nat.succ) =
        (List.range k).map (fun j => (pages (n + 1 + j)).getD []) :=
      List.map_congr_left (fun a _ => by
        simp only [Function.comp_apply]
        rw [show n + Nat.succ a = n + 1 + a by omega])
    simp only [getProductsGo]
    rw [hits]
    dsimp only
    rw [if_neg (by simp [hemp]), hrec]
    simp only [List.range_succ_eq_map, List.map_cons, List.map_map, List.flatten_cons,
      Nat.add_zero, hits, Option.getD_some, hmap, List.append_assoc]

/-- C5.  The paginated fetcher returns the concatenation of all pages
before the first empty or failed page, in order, and its result does
not depend on any later page (it stops requesting there); a failed
request truncates the result without an exception. -/
theorem get_products_pagination_spec {α : Type} (pages : Nat → Option (List α))
    (k fuel : Nat) (hfuel : k < fuel)
    (hpages : ∀ j, j < k → ∃ its, pages j = some its ∧ its ≠ [])
    (hstop : pages k = none ∨ pages k = some []) :
    get_products pages fuel = ((List.range k).map (fun j => (pages j).getD [])).flatten ∧
    ∀ pages2 : Nat → Option (List α), (∀ j, j ≤ k → pages2 j = pages j) →
      get_products pages2 fuel = get_products pages fuel := by
  have h1 : get_products pages fuel =
      ((List.range k).map (fun j => (pages j).getD [])).flatten := by
    have h := getProductsGo_spec pages k fuel 0 [] hfuel
      (fun j hj => by simpa using hpages j hj) (by simpa using hstop)
    simpa [get_products] using h
  refine ⟨h1, fun pages2 hagree => ?_⟩
  have h2 : get_products pages2 fuel =
      ((List.range k).map (fun j => (pages2 j).getD [])).flatten := by
    have h := getProductsGo_spec pages2 k fuel 0 [] hfuel
      (fun j hj => by
        obtain ⟨its, hits, hne⟩ := hpages j hj
        exact ⟨its, by simpa [hagree j (Nat.le_of_lt hj)] using hits, hne⟩)
      (by simpa [hagree k (le_refl k)] using hstop)
    simpa [get_products] using h
  rw [h1, h2]
  congr 1
  exact List.map_congr_left (fun a ha => by
    rw [hagree a (Nat.le_of_lt (List.mem_range.mp ha))])

/-- Witness for C5: pages of sizes 300, 300, 137, 0 yield exactly 737
items. -/
theorem get_products_pagination_witness : (get_products pages737 10).length = 737 := by
  have h := (get_products_pagination_spec pages737 3 10 (by decide)
    (fun j hj => by
      interval_cases j
      · exact ⟨List.replicate 300 1, rfl, by rw [Ne, List.replicate_eq_nil_iff]; norm_num⟩
      · exact ⟨List.replicate 300 2, rfl, by rw [Ne, List.replicate_eq_nil_iff]; norm_num⟩
      · exact ⟨List.replicate 137 3, rfl, by rw [Ne, List.replicate_eq_nil_iff]; norm_num⟩)
    (Or.inr rfl)).1
  rw [h, show List.range 3 = [0, 1, 2] from rfl]
  simp only [List.map_cons, List.map_nil, List.flatten_cons, List.flatten_nil,
    List.length_append, List.length_nil]
  norm_num [pages737, List.length_replicate]

/-- C8 evidence.  The synchronous transport catches only HTTP errors:
a connection error or timeout escapes as an exception on the first
attempt, while an HTTP error exhausts the three attempts and yields
`None`.  This contradicts the function's own docstring ("None in case
of any error (connection error, 4xx/5xx status...)"). -/
theorem make_request_conn_error_escapes :
    make_request (fun _ => HttpResp.connError) 3 = SyncResult.exn ∧
    make_request (fun _ => HttpResp.httpError 500 none) 3 = SyncResult.ret none := by
  exact ⟨rfl, rfl⟩

/-- Helper for C10: a stream of pure HTTP errors makes the synchronous
transport fall through its retry loop and return `None`. -/
lemma makeRequestGo_http_all (responses : Nat → HttpResp)
    (h : ∀ j, ∃ s ra, responses j = HttpResp.httpError s ra) :
    ∀ retries idx, makeRequestGo responses retries idx = SyncResult.ret none := by
  intro retries
  induction retries with
  | zero => intro idx; rfl
  | succ r ih =>
    intro idx
    obtain ⟨s, ra, hj⟩ := h idx
    simp only [makeRequestGo, hj]
    exact ih (idx + 1)

/-- C10.  A 2xx response with an empty body makes both transports
return `None` — the same value the synchronous transport returns after
its retries are exhausted, so the two cases are indistinguishable to a
caller. -/
theorem empty_body_absent_spec :
    (∀ (responses : Nat → HttpResp) (retries idx : Nat),
        responses idx = HttpResp.success none →
        makeRequestGo responses (retries + 1) idx = SyncResult.ret none) ∧
    (∀ (responses : Nat → HttpResp) (retries : Nat),
        (∀ j, ∃ s ra, responses j = HttpResp.httpError s ra) →
        make_request responses retries = SyncResult.ret none) ∧
    (∀ (responses : Nat → HttpResp) (delay : ℚ) (rem idx : Nat) (slept : ℚ),
        responses idx = HttpResp.success none →
        innerLoop responses delay (rem + 1) idx slept = InnerRes.done none (idx + 1) slept) := by
  refine ⟨?_, ?_, ?_⟩
  · intro responses retries idx h
    simp [makeRequestGo, h]
  · intro responses retries h
    exact makeRequestGo_http_all responses h retries 0
  · intro responses delay rem idx slept h
    simp [innerLoop, h]

/-- Witness for C10 at concrete inputs. -/
theorem empty_body_absent_witness :
    makeRequestGo (fun _ => HttpResp.success none) 3 0 = SyncResult.ret none ∧
    make_request (fun _ => HttpResp.httpError 500 none) 5 = SyncResult.ret none ∧
    innerLoop (fun _ => HttpResp.success none) 10 10 0 0 = InnerRes.done none 1 0 := by
  refine ⟨?_, ?_, ?_⟩
  · exact empty_body_absent_spec.1 _ 2 0 rfl
  · exact empty_body_absent_spec.2.1 _ 5 (fun j => ⟨500, none, rfl⟩)
  · exact empty_body_absent_spec.2.2 _ 10 9 0 0 rfl

/-- Counterexample for C6: every 429 response advances the inner loop
index (`continue` moves `for i in range(retries)` forward), so a
budget of one is exhausted by a single 429, a budget of ten by ten
429s (each having slept the 5-second hint), after which the outer
backoff cycle runs: with one unit of outer fuel the call has issued 10
requests, slept 50 s of hints plus the escalated 15 s delay, and not
returned. -/
theorem retry429_budget_consumed_cex :
    innerLoop resp429 10 1 0 0 = InnerRes.exhausted 1 5 ∧
    innerLoop resp429 10 10 0 0 = InnerRes.exhausted 10 50 ∧
    outerLoop resp429 10 1 0 10 0 = AsyncOutcome.mk none 10 65 := by
  refine ⟨by simp [innerLoop, resp429], ?_, ?_⟩
  · simp [innerLoop, resp429]
    norm_num
  · simp [outerLoop, innerLoop, resp429, nextDelay, min_def]
    norm_num

/-- C6 amended.  On a 429 carrying hint `n` the asynchronous transport
sleeps exactly `n` seconds before the next attempt, and the attempt
consumes one unit of the per-cycle retry budget. -/
theorem retry429_sleep_and_budget (responses : Nat → HttpResp) (delay : ℚ)
    (rem idx : Nat) (slept : ℚ) (n : Nat)
    (h : responses idx = HttpResp.httpError 429 (some n)) :
    innerLoop responses delay (rem + 1) idx slept =
      innerLoop responses delay rem (idx + 1) (slept + n) := by
  simp [innerLoop, h]

/-- Witness for the amended C6. -/
theorem retry429_sleep_and_budget_witness :
    innerLoop resp429 10 3 0 0 = innerLoop resp429 10 2 1 (0 + 5) := by
  exact retry429_sleep_and_budget resp429 10 2 0 0 5 rfl

/-- Helper for C7: under purely retryable failures the inner cycle
never returns. -/
lemma innerLoop_retryable_not_done (responses : Nat → HttpResp) (delay : ℚ)
    (hr : ∀ j, retryable (responses j)) :
    ∀ (rem idx : Nat) (slept : ℚ) (v : Option String) (i : Nat) (s : ℚ),
      innerLoop responses delay rem idx slept ≠ InnerRes.done v i s := by
  intro rem
  induction rem with
  | zero => intro idx slept v i s; simp [innerLoop]
  | succ rem ih =>
    intro idx slept v i s
    have hj := hr idx
    cases hresp : responses idx with
    | success body =>
      rw [hresp] at hj
      exact absurd hj (by simp [retryable])
    | httpError st ra =>
      rw [hresp] at hj
      have h404 : st ≠ 404 := hj
      simp only [innerLoop, hresp, if_neg h404]
      split
      · exact ih (idx + 1) _ v i s
      · split
        · exact ih (idx + 1) _ v i s
        · exact ih (idx + 1) _ v i s
    | connError =>
      simp only [innerLoop, hresp]
      exact ih (idx + 1) _ v i s

/-- Helper for C7: under purely retryable failures the outer loop
never produces a result, for any amount of fuel. -/
lemma outerLoop_retryable_result_none (responses : Nat → HttpResp)
    (hr : ∀ j, retryable (responses j)) (retries : Nat) :
    ∀ (fuel idx : Nat) (delay slept : ℚ),
      (outerLoop responses retries fuel idx delay slept).result = none := by
  intro fuel
  induction fuel with
  | zero => intro idx delay slept; rfl
  | succ f ih =>
    intro idx delay slept
    simp only [outerLoop]
    cases hinner : innerLoop responses delay retries idx slept with
    | done v i s => exact absurd hinner (innerLoop_retryable_not_done responses delay hr retries idx slept v i s)
    | exhausted i s => exact ih i (nextDelay delay) (s + nextDelay delay)

/-- C7.  A 404 makes the asynchronous transport return `None` at once
(one request, no sleep), both at the inner-cycle and whole-call level;
if every response is a retryable (non-404) failure the call never
returns, however much fuel the outer loop is given; and the escalated
outer delay is `min(delay * 1.5, 300)`, capped at 300 seconds. -/
theorem async_404_and_infinite_retry :
    (∀ (responses : Nat → HttpResp) (delay : ℚ) (rem idx : Nat) (slept : ℚ) (ra : Option Nat),
        responses idx = HttpResp.httpError 404 ra →
        innerLoop responses delay (rem + 1) idx slept = InnerRes.done none (idx + 1) slept) ∧
    (∀ (responses : Nat → HttpResp) (retries fuel idx : Nat) (delay slept : ℚ)
        (ra : Option Nat),
        responses idx = HttpResp.httpError 404 ra →
        outerLoop responses (retries + 1) (fuel + 1) idx delay slept =
          AsyncOutcome.mk (some none) (idx + 1) slept) ∧
    (∀ responses : Nat → HttpResp, (∀ j, retryable (responses j)) →
        ∀ (retries fuel idx : Nat) (delay slept : ℚ),
          (outerLoop responses retries fuel idx delay slept).result = none) ∧
    (∀ d : ℚ, nextDelay d = min (d * (3 / 2)) 300 ∧ nextDelay d ≤ 300) := by
  have h404 : ∀ (responses : Nat → HttpResp) (delay : ℚ) (rem idx : Nat) (slept : ℚ)
      (ra : Option Nat), responses idx = HttpResp.httpError 404 ra →
      innerLoop responses delay (rem + 1) idx slept = InnerRes.done none (idx + 1) slept := by
    intro responses delay rem idx slept ra h
    simp [innerLoop, h]
  refine ⟨h404, ?_, ?_, ?_⟩
  · intro responses retries fuel idx delay slept ra h
    simp only [outerLoop]
    rw [h404 responses delay retries idx slept ra h]
  · intro responses hr retries fuel idx delay slept
    exact outerLoop_retryable_result_none responses hr retries fuel idx delay slept
  · intro d
    exact ⟨rfl, min_le_right _ _⟩

/-- Witness for C7: a first-response 404 returns absent after one
request, and a stream of connection errors never returns. -/
theorem async_404_and_infinite_retry_witness :
    innerLoop (fun _ => HttpResp.httpError 404 none) 10 10 0 0 = InnerRes.done none 1 0 ∧
    (outerLoop (fun _ => HttpResp.connError) 10 5 0 10 0).result = none := by
  constructor
  · exact async_404_and_infinite_retry.1 _ 10 9 0 0 none rfl
  · exact async_404_and_infinite_retry.2.2.1 (fun _ => HttpResp.connError)
      (fun j => True.intro) 10 5 0 10 0

/-- Counterexample for C3: a remote product with status `draft` that
is absent from the local catalog belongs simultaneously to
`vendorCodes_draft`, `vendorCodes_only_on_intertop` (remoteOnly) and
`vendorCodes_not_uploaded` (since `draft` is not a stable status), so
the buckets are not pairwise disjoint, remoteOnly is not disjoint from
the draft list, and the draft list contains an article that is not
present locally. -/
theorem categorize_draft_remote_only_cex :
    "A" ∈ (categorize_intertop_products cexCatProducts []).vendorCodes_draft ∧
    "A" ∈ (categorize_intertop_products cexCatProducts []).vendorCodes_only_on_intertop ∧
    "A" ∈ (categorize_intertop_products cexCatProducts []).vendorCodes_not_uploaded ∧
    article_uniq_groups_keys [] = [] := by
  refine ⟨by decide, by decide, by decide, rfl⟩

/-- C3 amended.  The buckets built with a local-presence check do
satisfy the claim: `vendorCodes_not_approved` is disjoint from
remoteOnly and contains only articles present both remotely and
locally; `vendorCodes_draft` and `articles_moderate` are restricted to
remotely-present articles only (they carry no local filter), and
remoteOnly is disjoint from the local key set by construction. -/
theorem categorize_buckets_spec (products : List Product) (offers : List Offer) :
    (∀ x, x ∈ vendorCodes_not_approved products offers →
        x ∉ (categorize_intertop_products products offers).vendorCodes_only_on_intertop) ∧
    (∀ x, x ∈ vendorCodes_not_approved products offers →
        x ∈ products.map (fun p => p.vendor_code) ∧ x ∈ article_uniq_groups_keys offers) ∧
    (∀ x, x ∈ (categorize_intertop_products products offers).vendorCodes_draft →
        x ∈ products.map (fun p => p.vendor_code)) ∧
    (∀ x, x ∈ (categorize_intertop_products products offers).articles_moderate →
        x ∈ products.map (fun p => p.article)) ∧
    (∀ x, x ∈ (categorize_intertop_products products offers).vendorCodes_only_on_intertop →
        x ∉ article_uniq_groups_keys offers) := by
  refine ⟨?_, ?_, ?_, ?_, ?_⟩
  · intro x hx hmem
    simp only [vendorCodes_not_approved, List.mem_dedup, List.mem_map, List.mem_filter,
      Bool.and_eq_true, decide_eq_true_eq] at hx
    simp only [categorize_intertop_products, List.mem_dedup, List.mem_map,
      List.mem_filter, decide_eq_true_eq] at hmem
    obtain ⟨p, ⟨hp, hst, hloc⟩, rfl⟩ := hx
    obtain ⟨q, ⟨hq, hqloc⟩, hxq⟩ := hmem
    exact hqloc (hxq ▸ hloc)
  · intro x hx
    simp only [vendorCodes_not_approved, List.mem_dedup, List.mem_map, List.mem_filter,
      Bool.and_eq_true, decide_eq_true_eq] at hx
    obtain ⟨p, ⟨hp, hst, hloc⟩, rfl⟩ := hx
    exact ⟨List.mem_map.mpr ⟨p, hp, rfl⟩, hloc⟩
  · intro x hx
    simp only [categorize_intertop_products, List.mem_map, List.mem_filter,
      decide_eq_true_eq] at hx
    obtain ⟨p, ⟨hp, hst⟩, rfl⟩ := hx
    exact List.mem_map.mpr ⟨p, hp, rfl⟩
  · intro x hx
    simp only [categorize_intertop_products, List.mem_map, List.mem_filter,
      decide_eq_true_eq] at hx
    obtain ⟨p, ⟨hp, hst⟩, rfl⟩ := hx
    exact List.mem_map.mpr ⟨p, hp, rfl⟩
  · intro x hx
    simp only [categorize_intertop_products, List.mem_dedup, List.mem_map,
      List.mem_filter, decide_eq_true_eq] at hx
    obtain ⟨p, ⟨hp, hloc⟩, rfl⟩ := hx
    exact hloc

/-- Witness for the amended C3 at a concrete input: article `B` is
not-approved and present locally, hence not in remoteOnly. -/
theorem categorize_buckets_witness :
    "B" ∉ (categorize_intertop_products [⟨"B", "B", "not_approved"⟩]
      [⟨some "B", 10, 9, some 1, []⟩]).vendorCodes_only_on_intertop := by
  exact (categorize_buckets_spec [⟨"B", "B", "not_approved"⟩]
    [⟨some "B", 10, 9, some 1, []⟩]).1 "B" (by decide)

/-- Membership in `insertUniq`. -/
lemma mem_insertUniq {α : Type} [DecidableEq α] (x y : α) (l : List α) :
    x ∈ insertUniq y l ↔ x = y ∨ x ∈ l := by
  unfold insertUniq
  split
  · rename_i h
    constructor
    · exact fun hx => Or.inr hx
    · rintro (rfl | hx)
      · exact h
      · exact hx
  · simp [List.mem_cons]

/-- Membership in a fold of `insertUniq (some ·)`, as the pre-pass
builds the pending-moderation set. -/
lemma mem_foldl_insertUniq (l : List String) (acc : List (Option String)) (x : Option String) :
    x ∈ l.foldl (fun acc a => insertUniq (some a) acc) acc ↔
      x ∈ acc ∨ ∃ a, a ∈ l ∧ x = some a := by
  induction l generalizing acc with
  | nil => simp
  | cons b t ih =>
    simp only [List.foldl_cons, ih, mem_insertUniq, List.mem_cons]
    constructor
    · rintro ((rfl | hx) | ⟨a, ha, rfl⟩)
      · exact Or.inr ⟨b, Or.inl rfl, rfl⟩
      · exact Or.inl hx
      · exact Or.inr ⟨a, Or.inr ha, rfl⟩
    · rintro (hx | ⟨a, (rfl | ha), rfl⟩)
      · exact Or.inl (Or.inr hx)
      · exact Or.inl (Or.inl rfl)
      · exact Or.inr ⟨a, ha, rfl⟩

/-- C9.  The pre-pass issues a `draft` transition exactly for the
mapped articles of `remoteOnly - notUploaded` and for every article on
moderation; the pending-moderation set is exactly the moderate
articles; the post-pass issues a `moderate` transition exactly for the
members of whatever pending-moderation set it is given (hence
including any article added during planning); the draft list is
extended by exactly the archived vendor codes. -/
theorem status_pre_post_pass_spec (cat : Categorized) :
    (∀ x : Option String × String,
        x ∈ (handle_product_status_changes cat).status_calls ↔
          ((∃ i, i ∈ cat.vendorCodes_only_on_intertop ∧ i ∉ cat.vendorCodes_not_uploaded ∧
              x = (dictLookup cat.all_products_map i, "draft")) ∨
            (∃ a, a ∈ cat.articles_moderate ∧ x = (some a, "draft")))) ∧
    (∀ y : Option String,
        y ∈ (handle_product_status_changes cat).articles_to_moderate ↔
          ∃ a, a ∈ cat.articles_moderate ∧ y = some a) ∧
    (∀ (tm : List (Option String)) (y : Option String),
        (y, "moderate") ∈ finalize_status_updates tm ↔ y ∈ tm) ∧
    ((handle_product_status_changes cat).vendorCodes_draft =
      cat.vendorCodes_draft ++
        (cat.vendorCodes_only_on_intertop.filter
          (fun v => decide (v ∉ cat.vendorCodes_not_uploaded))).dedup) := by
  refine ⟨?_, ?_, ?_, rfl⟩
  · intro x
    simp only [handle_product_status_changes, List.mem_append, List.mem_map,
      List.mem_dedup, List.mem_filter, decide_eq_true_eq]
    constructor
    · rintro (⟨i, ⟨hi, hni⟩, rfl⟩ | ⟨a, ha, rfl⟩)
      · exact Or.inl ⟨i, hi, hni, rfl⟩
      · exact Or.inr ⟨a, ha, rfl⟩
    · rintro (⟨i, hi, hni, rfl⟩ | ⟨a, ha, rfl⟩)
      · exact Or.inl ⟨i, ⟨hi, hni⟩, rfl⟩
      · exact Or.inr ⟨a, ha, rfl⟩
  · intro y
    simp only [handle_product_status_changes]
    rw [mem_foldl_insertUniq]
    simp
  · intro tm y
    simp only [finalize_status_updates, List.mem_map, Prod.mk.injEq]
    constructor
    · rintro ⟨a, ha, rfl, h2⟩
      exact ha
    · intro hy
      exact ⟨y, hy, rfl, trivial⟩

/-- Witness for C9 at a concrete categoriser output. -/
theorem status_pre_post_pass_witness :
    ((some "ArtA" : Option String), "draft") ∈
      (handle_product_status_changes wCat).status_calls ∧
    ((some "M" : Option String), "moderate") ∈ finalize_status_updates [some "M"] := by
  constructor
  · exact ((status_pre_post_pass_spec wCat).1 _).mpr
      (Or.inl ⟨"A", by decide, by decide, by decide⟩)
  · exact ((status_pre_post_pass_spec wCat).2.2.1 [some "M"] (some "M")).mpr
      (by decide)

/-- An article present among the remote vendor codes is never in
`articles_only_on_rozetka`. -/
lemma not_mem_only_on_rozetka (products : List Product) (offers : List Offer) (a : String)
    (h : a ∈ products.map (fun p => p.vendor_code)) :
    (some a : Option String) ∉
      (categorize_intertop_products products offers).articles_only_on_rozetka := by
  intro hmem
  simp only [categorize_intertop_products, List.mem_dedup, List.mem_map,
    List.mem_filter, Bool.not_eq_true'] at hmem
  obtain ⟨o, ⟨ho, hno⟩, hoa⟩ := hmem
  rw [hoa] at hno
  simp only [optMem, decide_eq_false_iff_not] at hno
  exact hno h

/-- The not-uploaded prologue does not touch the used set or the task
lists. -/
lemma not_uploaded_prep_fields (cat : Categorized) (offer : Offer) (st : PlanState) :
    (not_uploaded_prep cat offer st).used = st.used ∧
    (not_uploaded_prep cat offer st).update_tasks = st.update_tasks ∧
    (not_uploaded_prep cat offer st).create_tasks = st.create_tasks := by
  unfold not_uploaded_prep draft_append moderate_add
  split_ifs <;> exact ⟨rfl, rfl, rfl⟩

/-- The not-uploaded prologue either leaves the moderation set alone
or inserts the mapped article. -/
lemma not_uploaded_prep_moderate (cat : Categorized) (offer : Offer) (st : PlanState) :
    (not_uploaded_prep cat offer st).articles_to_moderate = st.articles_to_moderate ∨
    (not_uploaded_prep cat offer st).articles_to_moderate =
      insertUniq (amapGet cat.all_products_map offer.article) st.articles_to_moderate := by
  unfold not_uploaded_prep draft_append moderate_add
  split_ifs <;> first
    | exact Or.inl rfl
    | exact Or.inr rfl

/-- Field characterisation of the create branch. -/
lemma create_branch_fields (cat : Categorized) (offer : Offer) (size_id : Nat)
    (st : PlanState) :
    (create_branch cat offer size_id st).create_tasks = st.create_tasks ++
      [⟨amapGet cat.all_products_map offer.article, pyStr offer.article ++ toString size_id,
        offer.stock_quantity, size_id, offer.price, offer.discount_price⟩] ∧
    (create_branch cat offer size_id st).articles_to_moderate =
      insertUniq (amapGet cat.all_products_map offer.article) st.articles_to_moderate ∧
    (create_branch cat offer size_id st).used = st.used ∧
    (create_branch cat offer size_id st).update_tasks = st.update_tasks := by
  unfold create_branch draft_append
  dsimp only
  split_ifs <;> exact ⟨rfl, rfl, rfl, rfl⟩

/-- The params loop is decided by the first size-named param. -/
lemma process_params_find_some (cat : Categorized) (mapping : VMap)
    (size_mapping : List (String × (Nat × String))) (offer : Offer) :
    ∀ (params : List Param) (st : PlanState) (p₀ : Param),
      params.find? (fun p => size_names.contains p.name) = some p₀ →
      process_params cat mapping size_mapping offer st params =
        process_size_param cat mapping size_mapping offer st p₀ := by
  intro params
  induction params with
  | nil => intro st p₀ h; simp at h
  | cons p rest ih =>
    intro st p₀ h
    cases hc : size_names.contains p.name with
    | true =>
      rw [List.find?_cons, hc] at h
      cases h
      simp only [process_params, hc, if_true]
    | false =>
      rw [List.find?_cons, hc] at h
      simp only [process_params, hc, Bool.false_eq_true, if_false]
      exact ih st p₀ h

/-- Inserting a present-or-new element twice is the same as once. -/
lemma insertUniq_idem {α : Type} [DecidableEq α] (y : α) (l : List α) :
    insertUniq y (insertUniq y l) = insertUniq y l := by
  by_cases h : y ∈ l
  · simp [insertUniq, h]
  · simp [insertUniq, h, List.mem_cons]

/-- `insertUniq` preserves `Nodup`. -/
lemma insertUniq_nodup {α : Type} [DecidableEq α] (y : α) (l : List α) (h : l.Nodup) :
    (insertUniq y l).Nodup := by
  unfold insertUniq
  split_ifs with hy
  · exact h
  · exact List.nodup_cons.mpr ⟨hy, h⟩

/-- One size-param step either leaves the moderation set alone or
inserts the mapped article. -/
lemma process_size_param_moderate (cat : Categorized) (mapping : VMap)
    (size_mapping : List (String × (Nat × String))) (offer : Offer) (st : PlanState)
    (p : Param) :
    (process_size_param cat mapping size_mapping offer st p).articles_to_moderate =
      st.articles_to_moderate ∨
    (process_size_param cat mapping size_mapping offer st p).articles_to_moderate =
      insertUniq (amapGet cat.all_products_map offer.article) st.articles_to_moderate := by
  unfold process_size_param
  cases hsz : dictLookup size_mapping (pyStrip p.value) with
  | none => exact Or.inl rfl
  | some v =>
    obtain ⟨sid, lbl⟩ := v
    dsimp only
    by_cases h0 : sid = 0
    · rw [if_pos h0]
      exact Or.inl rfl
    · rw [if_neg h0]
      cases hv : vmapGet mapping (amapGet cat.all_products_map offer.article, sid) with
      | none => exact Or.inr (create_branch_fields cat offer sid st).2.1
      | some d =>
        dsimp only
        split_ifs with hb hc
        · exact Or.inl rfl
        · exact Or.inl rfl
        · exact Or.inr (create_branch_fields cat offer sid st).2.1

/-- The params loop either leaves the moderation set alone or inserts
the mapped article. -/
lemma process_params_moderate (cat : Categorized) (mapping : VMap)
    (size_mapping : List (String × (Nat × String))) (offer : Offer) :
    ∀ (params : List Param) (st : PlanState),
      (process_params cat mapping size_mapping offer st params).articles_to_moderate =
        st.articles_to_moderate ∨
      (process_params cat mapping size_mapping offer st params).articles_to_moderate =
        insertUniq (amapGet cat.all_products_map offer.article) st.articles_to_moderate := by
  intro params
  induction params with
  | nil => intro st; exact Or.inl rfl
  | cons p rest ih =>
    intro st
    cases hc : size_names.contains p.name with
    | true =>
      simp only [process_params, hc, if_true]
      exact process_size_param_moderate cat mapping size_mapping offer st p
    | false =>
      simp only [process_params, hc, Bool.false_eq_true, if_false]
      exact ih st

/-- One offer step either leaves the moderation set alone or inserts
the mapped article of that offer. -/
lemma process_offer_moderate (cat : Categorized) (mapping : VMap)
    (size_mapping : List (String × (Nat × String))) (st : PlanState) (o : Offer) :
    (process_offer cat mapping size_mapping st o).articles_to_moderate =
      st.articles_to_moderate ∨
    (process_offer cat mapping size_mapping st o).articles_to_moderate =
      insertUniq (amapGet cat.all_products_map o.article) st.articles_to_moderate := by
  unfold process_offer
  split_ifs with hskip
  · exact Or.inl rfl
  · rcases process_params_moderate cat mapping size_mapping o o.params
      (not_uploaded_prep cat o st) with h2 | h2 <;>
      rcases not_uploaded_prep_moderate cat o st with h1 | h1
    · exact Or.inl (h2.trans h1)
    · exact Or.inr (h2.trans h1)
    · exact Or.inr (h2.trans (by rw [h1]))
    · exact Or.inr (h2.trans (by rw [h1, insertUniq_idem]))

/-- The planner fold never removes moderation-set members. -/
lemma planner_moderate_mono (cat : Categorized) (mapping : VMap)
    (size_mapping : List (String × (Nat × String))) :
    ∀ (offers : List Offer) (st : PlanState) (x : Option String),
      x ∈ st.articles_to_moderate →
      x ∈ (prepare_offer_updates cat mapping size_mapping offers st).articles_to_moderate := by
  intro offers
  induction offers with
  | nil => intro st x hx; exact hx
  | cons o rest ih =>
    intro st x hx
    simp only [prepare_offer_updates, List.foldl_cons]
    refine ih (process_offer cat mapping size_mapping st o) x ?_
    rcases process_offer_moderate cat mapping size_mapping st o with h | h
    · rw [h]; exact hx
    · rw [h]; exact (mem_insertUniq _ _ _).mpr (Or.inr hx)

/-- The planner fold preserves `Nodup` of the moderation set. -/
lemma planner_moderate_nodup (cat : Categorized) (mapping : VMap)
    (size_mapping : List (String × (Nat × String))) :
    ∀ (offers : List Offer) (st : PlanState),
      st.articles_to_moderate.Nodup →
      (prepare_offer_updates cat mapping size_mapping offers st).articles_to_moderate.Nodup := by
  intro offers
  induction offers with
  | nil => intro st h; exact h
  | cons o rest ih =>
    intro st h
    simp only [prepare_offer_updates, List.foldl_cons]
    refine ih (process_offer cat mapping size_mapping st o) ?_
    rcases process_offer_moderate cat mapping size_mapping st o with h1 | h1
    · rw [h1]; exact h
    · rw [h1]; exact insertUniq_nodup _ _ h

/-- C1.  An offer whose article resolves to a remote product, whose
first size-named param maps to a non-zero remote size id, and whose
remote variant exists with the same base price, discount price and
quantity and is active, contributes no update or create task and marks
`(article, sizeId)` as used. -/
theorem offer_match_no_task_marks_used (cat : Categorized) (products : List Product)
    (catOffers : List Offer) (mapping : VMap)
    (size_mapping : List (String × (Nat × String))) (offer : Offer) (a art : String)
    (p₀ : Param) (size_id : Nat) (lbl : String) (d : VariantData) (st : PlanState)
    (hcat : cat = categorize_intertop_products products catOffers)
    (hart : offer.article = some a)
    (hamem : a ∈ products.map (fun p => p.vendor_code))
    (hres : amapGet cat.all_products_map offer.article = some art)
    (hfind : offer.params.find? (fun p => size_names.contains p.name) = some p₀)
    (hsz : dictLookup size_mapping (pyStrip p₀.value) = some (size_id, lbl))
    (hsid : size_id ≠ 0)
    (hvar : vmapGet mapping ((some art : Option String), size_id) = some d)
    (hbc : d.barcode ≠ "")
    (heq : offer.price = d.base_price_amount ∧
      offer.discount_price = d.discount_price_amount ∧
      offer.stock_quantity = some d.quantity ∧ d.offer_activity = true) :
    (process_offer cat mapping size_mapping st offer).update_tasks = st.update_tasks ∧
    (process_offer cat mapping size_mapping st offer).create_tasks = st.create_tasks ∧
    ((some art : Option String), size_id) ∈
      (process_offer cat mapping size_mapping st offer).used := by
  have hskip : offer.article ∉ cat.articles_only_on_rozetka := by
    rw [hcat, hart]
    exact not_mem_only_on_rozetka products catOffers a hamem
  obtain ⟨hu, hup, hcr⟩ := not_uploaded_prep_fields cat offer st
  unfold process_offer
  rw [if_neg hskip,
    process_params_find_some cat mapping size_mapping offer offer.params _ p₀ hfind]
  unfold process_size_param
  rw [hsz]
  dsimp only
  rw [if_neg hsid, hres, hvar]
  dsimp only
  rw [if_pos hbc, if_neg (not_not_intro heq)]
  refine ⟨hup, hcr, ?_⟩
  rw [show ({ not_uploaded_prep cat offer st with
      used := insertUniq ((some art : Option String), size_id)
        (not_uploaded_prep cat offer st).used } : PlanState).used =
    insertUniq ((some art : Option String), size_id)
      (not_uploaded_prep cat offer st).used from rfl]
  exact (mem_insertUniq _ _ _).mpr (Or.inl rfl)

/-- Witness for C1 at a concrete catalog: the matching offer leaves
the task lists empty and records `("ArtA", 7)` as used. -/
theorem offer_match_no_task_marks_used_witness :
    (process_offer (categorize_intertop_products wProducts wOffers) wVMap wSzMap wSt0
      wOffer).update_tasks = wSt0.update_tasks ∧
    (process_offer (categorize_intertop_products wProducts wOffers) wVMap wSzMap wSt0
      wOffer).create_tasks = wSt0.create_tasks ∧
    ((some "ArtA" : Option String), 7) ∈
      (process_offer (categorize_intertop_products wProducts wOffers) wVMap wSzMap wSt0
        wOffer).used := by
  exact offer_match_no_task_marks_used
    (categorize_intertop_products wProducts wOffers) wProducts wOffers wVMap wSzMap
    wOffer "A" "ArtA" ⟨"size", "M"⟩ 7 "M-int" ⟨"BC1", 100, 90, "uploaded", true, 5⟩ wSt0
    rfl rfl (by decide) (by decide) (by decide) (by decide) (by decide) (by decide)
    (by decide) ⟨by decide, by decide, by decide, by decide⟩

/-- C4.  An offer whose article resolves to a remote product, whose
first size-named param maps to a non-zero remote size id, and for
which no remote variant exists at `(article, sizeId)`, contributes
exactly one create task, and after any full planner pass containing
that offer the mapped article belongs to the moderation set with
multiplicity exactly one (whatever other offers, including further
size variants of the same article, the catalog contains). -/
theorem create_one_task_moderate_once (cat : Categorized) (products : List Product)
    (catOffers : List Offer) (mapping : VMap)
    (size_mapping : List (String × (Nat × String))) (offer : Offer) (a art : String)
    (p₀ : Param) (size_id : Nat) (lbl : String)
    (hcat : cat = categorize_intertop_products products catOffers)
    (hart : offer.article = some a)
    (hamem : a ∈ products.map (fun p => p.vendor_code))
    (hres : amapGet cat.all_products_map offer.article = some art)
    (hfind : offer.params.find? (fun p => size_names.contains p.name) = some p₀)
    (hsz : dictLookup size_mapping (pyStrip p₀.value) = some (size_id, lbl))
    (hsid : size_id ≠ 0)
    (hnovar : vmapGet mapping ((some art : Option String), size_id) = none) :
    (∀ st : PlanState,
        (process_offer cat mapping size_mapping st offer).create_tasks =
          st.create_tasks ++
            [⟨some art, pyStr offer.article ++ toString size_id, offer.stock_quantity,
              size_id, offer.price, offer.discount_price⟩] ∧
        (some art : Option String) ∈
          (process_offer cat mapping size_mapping st offer).articles_to_moderate) ∧
    (∀ (l₁ l₂ : List Offer) (st₀ : PlanState), st₀.articles_to_moderate.Nodup →
        @List.count (Option String) instBEqOfDecidableEq (some art)
          (prepare_offer_updates cat mapping size_mapping (l₁ ++ offer :: l₂)
            st₀).articles_to_moderate = 1) := by
  have hskip : offer.article ∉ cat.articles_only_on_rozetka := by
    rw [hcat, hart]
    exact not_mem_only_on_rozetka products catOffers a hamem
  have hone : ∀ st : PlanState,
      (process_offer cat mapping size_mapping st offer).create_tasks =
        st.create_tasks ++
          [⟨some art, pyStr offer.article ++ toString size_id, offer.stock_quantity,
            size_id, offer.price, offer.discount_price⟩] ∧
      (some art : Option String) ∈
        (process_offer cat mapping size_mapping st offer).articles_to_moderate := by
    intro st
    obtain ⟨hu, hup, hcr⟩ := not_uploaded_prep_fields cat offer st
    unfold process_offer
    rw [if_neg hskip,
      process_params_find_some cat mapping size_mapping offer offer.params _ p₀ hfind]
    unfold process_size_param
    rw [hsz]
    dsimp only
    rw [if_neg hsid, hres, hnovar]
    obtain ⟨hct, hmod, hus, hupd⟩ :=
      create_branch_fields cat offer size_id (not_uploaded_prep cat offer st)
    constructor
    · rw [hct, hres, hcr]
    · rw [hmod, hres]
      exact (mem_insertUniq _ _ _).mpr (Or.inl rfl)
  refine ⟨hone, fun l₁ l₂ st₀ hnd => ?_⟩
  have hmem : (some art : Option String) ∈
      (prepare_offer_updates cat mapping size_mapping (l₁ ++ offer :: l₂)
        st₀).articles_to_moderate := by
    simp only [prepare_offer_updates, List.foldl_append, List.foldl_cons]
    exact planner_moderate_mono cat mapping size_mapping l₂ _ _
      ((hone (prepare_offer_updates cat mapping size_mapping l₁ st₀)).2)
  have hnd' : (prepare_offer_updates cat mapping size_mapping (l₁ ++ offer :: l₂)
      st₀).articles_to_moderate.Nodup :=
    planner_moderate_nodup cat mapping size_mapping (l₁ ++ offer :: l₂) st₀ hnd
  exact List.count_eq_one_of_mem hnd' hmem

/-- Witness for C4: with an empty variant snapshot the offer takes the
create branch, and two size variants of the same article still yield
multiplicity one in the moderation set. -/
theorem create_one_task_moderate_once_witness :
    (process_offer (categorize_intertop_products wProducts wOffers) [] wSzMap wSt0
      wOffer).create_tasks = wSt0.create_tasks ++
        [⟨some "ArtA", "A7", some 5, 7, 100, 90⟩] ∧
    @List.count (Option String) instBEqOfDecidableEq (some "ArtA")
      (prepare_offer_updates (categorize_intertop_products wProducts wOffers) [] wSzMap
        ([] ++ wOffer :: [wOffer]) wSt0).articles_to_moderate = 1 := by
  have h := create_one_task_moderate_once
    (categorize_intertop_products wProducts wOffers) wProducts wOffers [] wSzMap
    wOffer "A" "ArtA" ⟨"size", "M"⟩ 7 "M-int"
    rfl rfl (by decide) (by decide) (by decide) (by decide) (by decide) (by decide)
  exact ⟨(h.1 wSt0).1, h.2 [] [wOffer] wSt0 (by decide)⟩

/-- A successful dictionary lookup returns one of the stored pairs. -/
lemma dictLookup_mem {α β : Type} [DecidableEq α] :
    ∀ (l : List (α × β)) (k : α) (v : β), dictLookup l k = some v → (k, v) ∈ l := by
  intro l
  induction l with
  | nil => intro k v h; simp [dictLookup] at h
  | cons e rest ih =>
    intro k v h
    simp only [dictLookup] at h
    cases hr : dictLookup rest k with
    | some v' =>
      rw [hr] at h
      injection h with h2
      exact h2 ▸ List.mem_cons_of_mem e (ih k v' hr)
    | none =>
      rw [hr] at h
      by_cases he : e.1 = k
      · rw [if_pos he] at h
        injection h with h2
        have heq : e = (k, v) := by
          obtain ⟨e1, e2⟩ := e
          simp only at he h2
          rw [he, h2]
        rw [heq]
        exact List.mem_cons_self _ _
      · rw [if_neg he] at h
        exact absurd h (by simp)

/-- Characterisation of one deactivation-loop step. -/
lemma deactivation_step_some (mapping : VMap) (inactive : List String)
    (k : String × Nat) (t : DeactivateTask) :
    deactivation_step mapping inactive k = some t ↔
      ∃ d', dictLookup mapping k = some d' ∧ d'.barcode ∉ inactive ∧
        t = ⟨k.1, d'.barcode, d'.base_price_amount, d'.discount_price_amount, 0, false⟩ := by
  unfold deactivation_step
  cases h : dictLookup mapping k with
  | none => simp
  | some d' =>
    by_cases hb : d'.barcode ∈ inactive
    · simp [hb]
    · simp [hb, eq_comm]

/-- Counterexample for C2: the variant at key `("A", 1)` is already
inactive (`active = False`), its article has a stable refreshed status
and the key was not used, yet the planner still emits a deactivation
task for it, because its recorded product status is `archived` and
such barcodes are excluded from the already-inactive list. -/
theorem deactivation_inactive_archived_cex :
    dictLookup cexDeactMapping ("A", 1) =
      some ⟨"B1", 10, 9, "archived", false, 3⟩ ∧
    prepare_offer_deactivations cexDeactProducts cexDeactMapping [] =
      [⟨"A", "B1", 10, 9, 0, false⟩] := by
  exact ⟨by decide, by decide⟩

/-- C2 amended.  For a snapshot with unique keys and unique barcodes,
a stale key (unused, stable refreshed status): if its variant is
recorded inactive under a non-`archived` product status, no emitted
task carries its barcode; otherwise (variant active, or recorded under
an `archived` status even if inactive) the planner emits exactly one
deactivation task for it, with quantity 0, active false and the
variant's recorded prices unchanged. -/
theorem deactivation_plan_spec (products : List Product) (mapping : VMap)
    (used : List (Option String × Nat)) (a : String) (sid : Nat) (d : VariantData)
    (hnd : (mapping.map Prod.fst).Nodup)
    (hbar : (mapping.map (fun e => e.2.barcode)).Nodup)
    (hk : dictLookup mapping (a, sid) = some d)
    (hstable : a ∉ vendorCodes_articles_not_uploaded products)
    (hused : ((some a : Option String), sid) ∉ used) :
    (d.offer_activity = false ∧ d.product_status ≠ "archived" →
      ∀ t ∈ prepare_offer_deactivations products mapping used, t.barcode ≠ d.barcode) ∧
    (d.offer_activity = true ∨ d.product_status = "archived" →
      (⟨a, d.barcode, d.base_price_amount, d.discount_price_amount, 0, false⟩ :
          DeactivateTask) ∈ prepare_offer_deactivations products mapping used ∧
      @List.count DeactivateTask instBEqOfDecidableEq
        ⟨a, d.barcode, d.base_price_amount, d.discount_price_amount, 0, false⟩
        (prepare_offer_deactivations products mapping used) = 1) := by
  have hment : ((a, sid), d) ∈ mapping := dictLookup_mem mapping (a, sid) d hk
  constructor
  · rintro ⟨hact, hst⟩ t ht hbeq
    have hdin : d.barcode ∈ inactive_barcodes mapping :=
      List.mem_map.mpr ⟨((a, sid), d),
        List.mem_filter.mpr ⟨hment, by simp [hact, hst]⟩, rfl⟩
    obtain ⟨k', hk', hstep⟩ := List.mem_filterMap.mp ht
    rw [deactivation_step_some] at hstep
    obtain ⟨d', hd', hnin, rfl⟩ := hstep
    have hb' : d'.barcode = d.barcode := hbeq
    have hent : (k', d') = ((a, sid), d) :=
      List.inj_on_of_nodup_map hbar (dictLookup_mem mapping k' d' hd') hment hb'
    have : d' = d := congrArg Prod.snd hent
    rw [this] at hnin
    exact hnin hdin
  · intro hcase
    have hnin : d.barcode ∉ inactive_barcodes mapping := by
      intro hmem
      obtain ⟨e, he, hbe⟩ := List.mem_map.mp hmem
      obtain ⟨hem, hq⟩ := List.mem_filter.mp he
      have hent : e = ((a, sid), d) :=
        List.inj_on_of_nodup_map hbar hem hment hbe
      rw [hent] at hq
      rcases hcase with h | h <;> simp [h] at hq
    have hstep : deactivation_step mapping (inactive_barcodes mapping) (a, sid) =
        some ⟨a, d.barcode, d.base_price_amount, d.discount_price_amount, 0, false⟩ := by
      rw [deactivation_step_some]
      exact ⟨d, hk, hnin, rfl⟩
    have hkeymem : (a, sid) ∈ not_updated_offers_keys products mapping used :=
      List.mem_filter.mpr
        ⟨List.mem_dedup.mpr (List.mem_map.mpr ⟨((a, sid), d), hment, rfl⟩),
          by simp [hused, hstable]⟩
    have hmem : (⟨a, d.barcode, d.base_price_amount, d.discount_price_amount, 0, false⟩ :
        DeactivateTask) ∈ prepare_offer_deactivations products mapping used :=
      List.mem_filterMap.mpr ⟨(a, sid), hkeymem, hstep⟩
    refine ⟨hmem, ?_⟩
    have hndtasks : (prepare_offer_deactivations products mapping used).Nodup := by
      refine List.Nodup.filterMap ?_ (List.Nodup.filter _ (List.nodup_dedup _))
      intro k₁ k₂ t ht₁ ht₂
      rw [Option.mem_def, deactivation_step_some] at ht₁ ht₂
      obtain ⟨d₁, hd₁, hn₁, he₁⟩ := ht₁
      obtain ⟨d₂, hd₂, hn₂, he₂⟩ := ht₂
      have hcomps := he₁.symm.trans he₂
      simp only [DeactivateTask.mk.injEq] at hcomps
      have hent : (k₁, d₁) = (k₂, d₂) :=
        List.inj_on_of_nodup_map hbar (dictLookup_mem mapping k₁ d₁ hd₁)
          (dictLookup_mem mapping k₂ d₂ hd₂) hcomps.2.1
      exact congrArg Prod.fst hent
    exact List.count_eq_one_of_mem hndtasks hmem

/-- Witness for the amended C2: an active stale variant yields exactly
one deactivation task with its prices preserved. -/
theorem deactivation_plan_spec_witness :
    (⟨"A", "B1", 10, 9, 0, false⟩ : DeactivateTask) ∈
      prepare_offer_deactivations cexDeactProducts wDeactMapping [] ∧
    @List.count DeactivateTask instBEqOfDecidableEq ⟨"A", "B1", 10, 9, 0, false⟩
      (prepare_offer_deactivations cexDeactProducts wDeactMapping []) = 1 := by
  exact (deactivation_plan_spec cexDeactProducts wDeactMapping [] "A" 1
    ⟨"B1", 10, 9, "uploaded", true, 3⟩ (by decide) (by decide) (by decide) (by decide)
    (by decide)).2 (Or.inl rfl)

end XmlConv
